import Mathlib

/-!
Verification development for the MacroMaker repository: a deterministic
search-and-replay engine for a frame-stepped simulation.  The source is a
Geode mod in three draft variants:

* `src/unnamed/part_002` — randomized trial search over a live simulation
  (`solverRun`), CSV click-frame encoder, timestamped export filename;
* `src/unnamed/part_000` — backtracking depth-bounded DFS over a live
  simulation with snapshot/restore (`dfs` inside `runSolverAndRecord`);
* `src/src/main.cpp` — a pure-compute DFS running on a copied snapshot
  (`dfs` inside `onRequestMacro`).

The host simulation (`PlayLayer`) is external to the repository; it is
embedded at its interface boundary as a record of opaque state-transition
functions, so one simulation instance is a value of the state type and
`update`/`pushButton`/`resetLevelFromStart` are pure functions on it.
Wall-clock time is embedded as a natural-number clock that advances by a
fixed cost per engine frame.  C++ `float` randomness is embedded over `ℚ`.
Strings are embedded as `List Char`.
-/

/-! ### Decimal rendering of naturals

`fmt::format` with a nonnegative integer prints standard decimal digits.
`natRepr` embeds that rendering; `parseNat` is its left inverse.
-/

/-- Value of a decimal digit character (the inverse of `Nat.digitChar` on
decimal digits). -/
def charVal (c : Char) : Nat := c.toNat - 48

/-- Parse a big-endian decimal digit string, as `fold` over the characters. -/
def parseNat (cs : List Char) : Nat :=
  cs.foldl (fun a c => 10 * a + charVal c) 0

/-- Decimal rendering of a natural number, big-endian, no leading zeros
(matching `fmt::format` on a nonnegative integer). -/
def natRepr (n : Nat) : List Char :=
  if n = 0 then ['0'] else ((Nat.digits 10 n).map Nat.digitChar).reverse

/-! ### Replay encoder (part_002, `solverRun` lines 133-141)

The found run is exported as the comma-separated decimal list of the frame
indices at which the control was engaged: the code appends `","` before
every element except the first and renders each index with `fmt::format`.
-/

/-- The CSV rendering of a list of click-frame indices, exactly as built by
the found-branch of `solverRun` (comma before every element but the first). -/
def encodeClicks : List Nat → List Char
  | [] => []
  | [n] => natRepr n
  | n :: m :: rest => natRepr n ++ ',' :: encodeClicks (m :: rest)

/-- The click-frame indices of a decision sequence, as collected by the
`for (i...) if (seq[i].click) foundClicks.push_back(i)` loop. -/
def clickFramesOf (seq : List Bool) : List Nat :=
  (List.range seq.length).filter (fun i => seq.getD i false)

/-- The encoder applied to a whole decision sequence: the code first
collects the click frames of the sequence and then renders them as CSV. -/
def encodeSeq (seq : List Bool) : List Char :=
  encodeClicks (clickFramesOf seq)

/-- Splitter for comma-separated fields, used by the canonical decoder. -/
def splitComma : List Char → List (List Char)
  | [] => [[]]
  | c :: rest =>
    if c = ',' then [] :: splitComma rest
    else
      match splitComma rest with
      | [] => [[c]]
      | g :: gs => (c :: g) :: gs

/-- Modelled from the spec: the repository contains no decoder for the
exported macro text; section 4.5 fixes encoding (b), "a simple ordered list
of frame indices at which the control was engaged, rendered as a delimited
text record", and section 8 demands the round-trip law for it.  The
canonical inverse splits the record on commas and parses each decimal
field. -/
def decodeClicks (cs : List Char) : List Nat :=
  if cs = [] then [] else (splitComma cs).map parseNat

/-! ### Export filename (part_002, `onExportClicked` lines 271-284)

The suggested filename is the level name with every character outside the
C `isalnum` class replaced by an underscore, then an underscore, the
Unix-epoch-seconds timestamp cast to a 32-bit signed `int`
(`fmt::format` renders `(int)t`, a wrapping narrowing of `time_t`), and
the fixed extension `.macro.txt`.
-/

/-- Sanitization loop `for (auto &c : lvlName) if (!isalnum(c)) c = '_'`.
`Char.isAlphanum` is the ASCII `[A-Za-z0-9]` class, matching C `isalnum`
in the default locale. -/
def sanitizeName (s : List Char) : List Char :=
  s.map (fun c => if c.isAlphanum then c else '_')

/-- The fixed extension `.macro.txt` appended by the export handler. -/
def fileExt : List Char := ['.', 'm', 'a', 'c', 'r', 'o', '.', 't', 'x', 't']

/-- The `(int)t` narrowing of the `time_t` epoch seconds: reduction modulo
2^32, read as a 32-bit two's-complement signed integer. -/
def toInt32 (t : Nat) : Int :=
  if t % 2 ^ 32 < 2 ^ 31 then (t % 2 ^ 32 : Int)
  else (t % 2 ^ 32 : Int) - 2 ^ 32

/-- `fmt::format` of a signed integer: a minus sign for negative values,
then the decimal magnitude. -/
def intRepr (n : Int) : List Char :=
  if n < 0 then '-' :: natRepr n.natAbs else natRepr n.natAbs

/-- The suggested export filename built by `fmt::format` of the sanitized
level name, `_`, the wrapped timestamp `(int)t`, `.macro.txt`. -/
def exportFilename (lvlName : List Char) (t : Nat) : List Char :=
  sanitizeName lvlName ++ '_' :: (intRepr (toInt32 t) ++ fileExt)

/-! ### Backtracking depth-bounded DFS (part_000, `dfs` lines 152-194)

The host adapter is embedded at the section 4.1 interface boundary: the
simulation instance is a value of the state type, `update` advances it one
fixed tick and `pushButton` presses jump.  `runSolverAndRecord` calls
`takeStateSnapshot()` exactly once, before the search starts (line 154),
so every `restoreStateSnapshot()` inside `dfs` (lines 182 and 190) reverts
the simulation to the search-start state, not to the branch point: after a
"no click" subtree fails, the "click" branch of every call steps from the
search-start state `s0`.  The embedding carries `s0` explicitly and
threads the live state functionally.  The recursion on the frame index is
bounded by `maxFrames - frame`; that difference is the structural `fuel`
argument of `dfsGo`, and `dfs` starts it at exactly that value, so
`fuel = 0` occurs exactly when `frame >= maxFrames`, where the source also
backtracks.
-/

/-- The narrow oracle interface of the live `PlayLayer` used by the DFS:
`update` steps one `SIM_DT` tick, `pushButton` presses jump,
`getCurrentPercentInt` is the success query, and `playerDead` is the
`m_player1 && playerIsFalling(0) && playerDestroyed` failure prune. -/
structure DFSOracle (σ : Type) where
  update : σ → σ
  pushButton : σ → σ
  getCurrentPercentInt : σ → Int
  playerDead : σ → Bool

/-- One simulated frame: optionally press jump, then step the engine one
tick (`pl->m_player1->pushButton(...); pl->update(SIM_DT)`). -/
def stepSim {σ : Type} (O : DFSOracle σ) (s : σ) (click : Bool) : σ :=
  O.update (if click then O.pushButton s else s)

/-- The DFS of part_000 with the frame bound made structural: at each frame
check the bound, then success, then the death prune, then try "no click"
from the current state; when that subtree fails, `restoreStateSnapshot()`
reverts the simulation to the one search-start snapshot `s0`, so the
"click" branch steps from `s0`. -/
def dfsGo {σ : Type} (O : DFSOracle σ) (maxF : Nat) (s0 : σ) :
    Nat → σ → Nat → Option (List Bool)
  | 0, _, _ => none
  | fuel + 1, s, f =>
    if maxF ≤ f then none
    else if 100 ≤ O.getCurrentPercentInt s then some []
    else if O.playerDead s then none
    else
      match dfsGo O maxF s0 fuel (stepSim O s false) (f + 1) with
      | some T => some (false :: T)
      | none =>
        match dfsGo O maxF s0 fuel (stepSim O s0 true) (f + 1) with
        | some T => some (true :: T)
        | none => none

/-- The source `dfs(frame)` entry: the search begins at the snapshot state
`s0`, fuel being the remaining frame budget. -/
def dfs {σ : Type} (O : DFSOracle σ) (maxF : Nat) (s0 : σ) (f : Nat) :
    Option (List Bool) :=
  dfsGo O maxF s0 (maxF - f) s0 f

/-- The acceptance notion the claim asserts of the DFS (spec section 4.2):
a sequence is a solution from state `s` at frame `f` when replaying it
frame-by-frame leaves the simulation non-terminal below the frame bound at
every proper prefix and reaches the success query while still below the
bound.  It is defined by the replay semantics alone, independent of the
search, and serves as the comparison notion for the ordering claim. -/
def isSolution {σ : Type} (O : DFSOracle σ) (maxF : Nat) :
    σ → Nat → List Bool → Bool
  | s, f, [] => decide (f < maxF) && decide (100 ≤ O.getCurrentPercentInt s)
  | s, f, b :: T =>
    decide (f < maxF) && !(decide (100 ≤ O.getCurrentPercentInt s)) &&
      !(O.playerDead s) && isSolution O maxF (stepSim O s b) (f + 1) T

/-- Strict lexicographic order on decision sequences with "no engage"
below "engage" (`false < true`), a proper prefix below its extensions. -/
def lexLt : List Bool → List Bool → Bool
  | _, [] => false
  | [], _ :: _ => true
  | a :: as, b :: bs => (!a && b) || ((a == b) && lexLt as bs)

/-! ### The DFS under its wall-clock deadline (part_000, lines 167-168)

The source checks `elapsed > TIMEOUT_MS` at the top of every recursive
call.  The wall clock is embedded as a natural number starting at 0 that
advances by a fixed cost `c` per engine step (`pl->update(SIM_DT)`); `D` is
the timeout.  `dfsTGo` additionally returns the final clock and the list of
clock values at which each engine step started, so post-deadline work is
observable. -/

def dfsTGo {σ : Type} (O : DFSOracle σ) (maxF D c : Nat) (s0 : σ) :
    Nat → σ → Nat → Nat → Option (List Bool) × Nat × List Nat
  | 0, _, _, now => (none, now, [])
  | fuel + 1, s, f, now =>
    if D < now then (none, now, [])
    else if maxF ≤ f then (none, now, [])
    else if 100 ≤ O.getCurrentPercentInt s then (some [], now, [])
    else if O.playerDead s then (none, now, [])
    else
      match dfsTGo O maxF D c s0 fuel (stepSim O s false) (f + 1) (now + c) with
      | (some T, n1, ts1) => (some (false :: T), n1, now :: ts1)
      | (none, n1, ts1) =>
        match dfsTGo O maxF D c s0 fuel (stepSim O s0 true) (f + 1) (n1 + c) with
        | (some T, n2, ts2) => (some (true :: T), n2, now :: ts1 ++ n1 :: ts2)
        | (none, n2, ts2) => (none, n2, now :: ts1 ++ n1 :: ts2)

/-- The timed DFS entry point from the snapshot state `s0`, fuel being the
remaining frame budget. -/
def dfsT {σ : Type} (O : DFSOracle σ) (maxF D c : Nat) (s0 : σ) (f now : Nat) :
    Option (List Bool) × Nat × List Nat :=
  dfsTGo O maxF D c s0 (maxF - f) s0 f now

/-! ### Pure-compute solver (src/src/main.cpp, `dfs` lines 110-139)

This DFS runs on a background thread with no engine calls at all: its
success test reads only the frame counter
(`frame > 0 && frame * 10 > SUCCESS_X_THRESHOLD`), there is no failure
prune, and the `SolverInput` snapshot copy captured by the closure is never
read.  Because no engine stepping happens, the embedded wall clock never
advances, so the 40-second `SOLVER_TIMEOUT_MS` check
(`elapsed > SOLVER_TIMEOUT_MS` with `elapsed = 0`) can never fire and is
dropped from the embedding.  The frame bound is made structural exactly as
in `dfsGo`. -/

def MAIN_MAX_SEARCH_FRAMES : Nat := 60 * 60 * 2

/-- The placeholder success threshold of the prototype solver. -/
def SUCCESS_X_THRESHOLD : Nat := 5000

/-- The read-only snapshot copy handed to the background solver
(player position; `float` embedded as `ℚ`). -/
structure SolverInput where
  playerX : ℚ
  playerY : ℚ

/-- The `dfs` lambda of `onRequestMacro`: two branches per frame, "no
click" first, success purely from the frame counter, no failure check. -/
def mainDfsGo : Nat → Nat → Option (List Bool)
  | 0, _ => none
  | fuel + 1, f =>
    if MAIN_MAX_SEARCH_FRAMES ≤ f then none
    else if 0 < f ∧ SUCCESS_X_THRESHOLD < f * 10 then some []
    else
      match mainDfsGo fuel (f + 1) with
      | some T => some (false :: T)
      | none =>
        match mainDfsGo fuel (f + 1) with
        | some T => some (true :: T)
        | none => none

/-- Entry of the pure-compute DFS at a given frame. -/
def mainDfs (f : Nat) : Option (List Bool) :=
  mainDfsGo (MAIN_MAX_SEARCH_FRAMES - f) f

/-- The background solver as invoked by `onRequestMacro`: the thread
captures the `SolverInput` copy but the search never reads it. -/
def mainSolver (_inp : SolverInput) : Option (List Bool) :=
  mainDfs 0

/-! ### Randomized trial search (part_002, `solverRun` lines 51-149)

The solver tries up to `MAX_TRIALS` random candidate sequences, resetting
the level before each trial.  The three `std::mt19937`-driven draws are
embedded as oracle streams of raw values: `uniform_int_distribution(a, b)`
maps a raw natural into `[a, b]` by remainder, and
`uniform_real_distribution(a, b)` maps a raw rational of `[0, 1]` affinely
into `[a, b]`.  The wall clock starts at 0, advances by a cost `c` per
engine `update` call, and is compared against the deadline at the top of
every trial, exactly as `Clock::now() < deadline` in the loop header. -/

def MAX_SEARCH_FRAMES : Nat := 60 * 30

/-- Number of candidate sequences tried (`MAX_TRIALS` of part_002). -/
def MAX_TRIALS : Nat := 500

/-- Overall solver timeout in milliseconds (`TIMEOUT_MS` of part_002). -/
def TIMEOUT_MS : Nat := 35 * 1000

/-- The oracle interface of the live `PlayLayer` used by the randomized
solver: frame stepping, jump press, the percent query, the
gameplay-active query, and the restart operations. -/
structure PlaySim (σ : Type) where
  update : σ → σ
  pushButton : σ → σ
  getCurrentPercentInt : σ → Int
  isGameplayActive : σ → Bool
  startGame : σ → σ
  resetLevelFromStart : σ → σ

/-- Raw randomness consumed by `solverRun`: one raw natural per trial for
the length draw, one raw rational per trial for the click-probability
draw, and one raw rational per (trial, frame) for the Bernoulli draws. -/
structure Rng where
  rawLen : Nat → Nat
  rawProb : Nat → ℚ
  rawClick : Nat → Nat → ℚ

/-- `std::uniform_int_distribution<int>(lo, hi)` on a raw draw: a value in
`[lo, hi]`. -/
def uniformIntDist (lo hi raw : Nat) : Nat := lo + raw % (hi + 1 - lo)

/-- `std::uniform_real_distribution<float>(lo, hi)` on a raw draw in
`[0, 1]`: the affine image in `[lo, hi]`. -/
def uniformRealDist (lo hi r : ℚ) : ℚ := lo + (hi - lo) * r

/-- The per-trial candidate sequence: `seq[i].click = (raw < clickProb)`. -/
def genSeq (len : Nat) (p : ℚ) (raw : Nat → ℚ) : List Bool :=
  (List.range len).map (fun i => decide (raw i < p))

/-- The full candidate draw of one trial in `solverRun`: length uniform in
`[60, min(MAX_SEARCH_FRAMES, 600)]`, click probability uniform in
`[0.01, 0.15]`, then independent Bernoulli draws. -/
def genSeqFor (rng : Rng) (trial : Nat) : List Bool :=
  genSeq (uniformIntDist 60 (min MAX_SEARCH_FRAMES 600) (rng.rawLen trial))
    (uniformRealDist (mkRat 1 100) (mkRat 15 100) (rng.rawProb trial))
    (rng.rawClick trial)

/-- One simulated frame of a trial: apply the click if drawn, then step
the engine one frame (`pushButton`; `update(SIM_DT)`). -/
def stepPlay {σ : Type} (O : PlaySim σ) (s : σ) (click : Bool) : σ :=
  O.update (if click then O.pushButton s else s)

/-- The inner replay loop of one trial: after each frame check success
(`getCurrentPercentInt() >= 100`, breaking with the success frame index)
then the fail heuristic (`!isGameplayActive()`, breaking without success).
Returns the success frame if any, the number of frames stepped, and the
final simulation state.  The source records the break cause in a local
`died` flag that is never read afterwards, so it is not returned. -/
def runTrial {σ : Type} (O : PlaySim σ) : List Bool → Nat → σ → Option Nat × Nat × σ
  | [], f, s => (none, f, s)
  | b :: rest, f, s =>
    if 100 ≤ O.getCurrentPercentInt (stepPlay O s b) then
      (some f, f + 1, stepPlay O s b)
    else if O.isGameplayActive (stepPlay O s b) then
      runTrial O rest (f + 1) (stepPlay O s b)
    else (none, f + 1, stepPlay O s b)

/-- The per-trial restart: `resetLevelFromStart` followed by the two
warm-up `update(SIM_DT)` calls. -/
def warmStart {σ : Type} (O : PlaySim σ) (s : σ) : σ :=
  O.update (O.update (O.resetLevelFromStart s))

/-- Observations of the successful trial: its index, the full generated
candidate sequence (from which `foundClicks` is computed over all of
`seqLen`), the post-restart state it started from, and the frame index at
which `isSuccess` fired. -/
structure FoundInfo (σ : Type) where
  trial : Nat
  seq : List Bool
  startState : σ
  frame : Nat

/-- The observable outcome of the trial loop: the found data if any, the
final simulation state, the final clock, and the number of trials
attempted. -/
structure LoopResult (σ : Type) where
  found : Option (FoundInfo σ)
  state : σ
  now : Nat
  trials : Nat

/-- The `for (trial...)` loop of `solverRun` with its remaining trial count
made structural: the loop condition `trial < MAX_TRIALS && Clock::now() <
deadline && !found` is checked at the top of every iteration, each
iteration draws a candidate, restarts the level, replays the candidate,
and accumulates `c` clock units per engine `update` (two warm-ups plus the
frames stepped). -/
def solverLoopGo {σ : Type} (O : PlaySim σ) (rng : Rng) (deadline c : Nat) :
    Nat → Nat → Nat → σ → LoopResult σ
  | 0, trial, now, s => ⟨none, s, now, trial⟩
  | fuel + 1, trial, now, s =>
    if MAX_TRIALS ≤ trial then ⟨none, s, now, trial⟩
    else if deadline ≤ now then ⟨none, s, now, trial⟩
    else
      match runTrial O (genSeqFor rng trial) 0 (warmStart O s) with
      | (some fr, played, s1) =>
        ⟨some ⟨trial, genSeqFor rng trial, warmStart O s, fr⟩, s1,
          now + c * (2 + played), trial + 1⟩
      | (none, played, s1) =>
        solverLoopGo O rng deadline c fuel (trial + 1) (now + c * (2 + played)) s1

/-- `solverRun` of part_002: the readiness check (`if (!isGameplayActive())
startGame()`) followed by the trial loop with the full trial budget, a
fresh clock, and the deadline. -/
def solverRun {σ : Type} (O : PlaySim σ) (rng : Rng) (deadline c : Nat)
    (s : σ) : LoopResult σ :=
  solverLoopGo O rng deadline c MAX_TRIALS 0 0
    (if O.isGameplayActive s then s else O.startGame s)

/-- `g_modalState.lastReplayData` after the solver ends: the CSV of the
click frames of the full found sequence when found, untouched (empty)
otherwise. -/
def lastReplayDataOf {σ : Type} (r : LoopResult σ) : List Char :=
  match r.found with
  | none => []
  | some info => encodeSeq info.seq

/-- The per-frame state trace of replaying a decision sequence. -/
def replayStates {σ : Type} (O : PlaySim σ) : List Bool → σ → List σ
  | [], _ => []
  | b :: rest, s => stepPlay O s b :: replayStates O rest (stepPlay O s b)

/-- Index of the first state of a trace where the success query fires. -/
def firstSuccessIdx {σ : Type} (O : PlaySim σ) : List σ → Option Nat
  | [] => none
  | st :: rest =>
    if 100 ≤ O.getCurrentPercentInt st then some 0
    else (firstSuccessIdx O rest).map (fun j => j + 1)

/-! ### Concrete toy adapters

Small concrete instantiations of the oracle interfaces, used to evaluate
the searches on closed inputs. -/

/-- Toy DFS adapter: the state counts frames, jump does nothing, success
fires from state 2 on, the player never dies. -/
def demoDFSO : DFSOracle Nat where
  update := fun s => s + 1
  pushButton := fun s => s
  getCurrentPercentInt := fun s => if 2 ≤ s then 100 else 0
  playerDead := fun _ => false

/-- Toy adapter whose state is its own input history (with the
pending-press flag of `stepSim`): success fires exactly when the first
frame was a click.  On it the single-snapshot restore of part_000 is
observable. -/
def snapO : DFSOracle (List Bool × Bool) where
  update := fun s => (s.1 ++ [s.2], false)
  pushButton := fun s => (s.1, true)
  getCurrentPercentInt := fun s => if s.1.getD 0 false then 100 else 0
  playerDead := fun _ => false

/-- Toy DFS adapter with no terminal states at all (for deadline runs). -/
def demoU : DFSOracle Unit where
  update := fun s => s
  pushButton := fun s => s
  getCurrentPercentInt := fun _ => 0
  playerDead := fun _ => false

/-- Toy randomized-solver adapter: the state counts frames from the reset
state 0, success fires from state 5 on, gameplay is always active. -/
def demoPlay : PlaySim Nat where
  update := fun s => s + 1
  pushButton := fun s => s
  getCurrentPercentInt := fun s => if 5 ≤ s then 100 else 0
  isGameplayActive := fun _ => true
  startGame := fun s => s
  resetLevelFromStart := fun _ => 0

/-- Raw randomness making every trial the all-false sequence of length 60:
the raw Bernoulli draw 1 is never below the drawn click probability. -/
def demoRng : Rng where
  rawLen := fun _ => 0
  rawProb := fun _ => 0
  rawClick := fun _ _ => 1

/-- Toy adapter succeeding one frame after the warm-up. -/
def cexO6 : PlaySim Nat where
  update := fun s => s + 1
  pushButton := fun s => s
  getCurrentPercentInt := fun s => if 3 ≤ s then 100 else 0
  isGameplayActive := fun _ => true
  startGame := fun s => s
  resetLevelFromStart := fun _ => 0

/-- Raw randomness drawing a click at frame 1 only. -/
def cexRng6 : Rng where
  rawLen := fun _ => 0
  rawProb := fun _ => 0
  rawClick := fun _ i => if i = 1 then 0 else 1

/-- The candidate sequence that `cexRng6` makes trial 0 draw. -/
def cexSeq6 : List Bool := genSeqFor cexRng6 0

/-- Toy adapter that is never gameplay-active and whose `startGame` does
not change that. -/
def u7Play : PlaySim Unit where
  update := fun s => s
  pushButton := fun s => s
  getCurrentPercentInt := fun _ => 0
  isGameplayActive := fun _ => false
  startGame := fun s => s
  resetLevelFromStart := fun s => s

/-! ### Properties -/

theorem charVal_digitChar (d : Nat) (hd : d < 10) :
    charVal (Nat.digitChar d) = d := by
  interval_cases d <;> rfl

theorem digitChar_isDigit (d : Nat) (hd : d < 10) :
    (Nat.digitChar d).isDigit = true := by
  interval_cases d <;> rfl

theorem parseNat_append_singleton (cs : List Char) (c : Char) :
    parseNat (cs ++ [c]) = 10 * parseNat cs + charVal c := by
  simp [parseNat, List.foldl_append]

theorem parseNat_rev_digits (ds : List Nat) (h : ∀ d ∈ ds, d < 10) :
    parseNat ((ds.map Nat.digitChar).reverse) = Nat.ofDigits 10 ds := by
  induction ds with
  | nil => rfl
  | cons d ds ih =>
    have hd : d < 10 := h d (List.mem_cons_self d ds)
    have hds : ∀ x ∈ ds, x < 10 := fun x hx => h x (List.mem_cons_of_mem d hx)
    simp only [List.map_cons, List.reverse_cons]
    rw [parseNat_append_singleton, ih hds, charVal_digitChar d hd,
      Nat.ofDigits_cons]
    omega

theorem parseNat_natRepr (n : Nat) : parseNat (natRepr n) = n := by
  by_cases h : n = 0
  · subst h; rfl
  · unfold natRepr
    rw [if_neg h]
    rw [parseNat_rev_digits (Nat.digits 10 n)
      (fun d hd => Nat.digits_lt_base (by norm_num) hd)]
    exact Nat.ofDigits_digits 10 n

theorem natRepr_injective (m n : Nat) (h : natRepr m = natRepr n) : m = n := by
  have := congrArg parseNat h
  rwa [parseNat_natRepr, parseNat_natRepr] at this

theorem natRepr_ne_nil (n : Nat) : natRepr n ≠ [] := by
  by_cases h : n = 0
  · subst h; simp [natRepr]
  · unfold natRepr
    rw [if_neg h]
    simp only [ne_eq, List.reverse_eq_nil_iff, List.map_eq_nil_iff]
    exact Nat.digits_ne_nil_iff_ne_zero.mpr h

theorem natRepr_isDigit (n : Nat) (c : Char) (hc : c ∈ natRepr n) :
    c.isDigit = true := by
  by_cases h : n = 0
  · subst h
    simp only [natRepr, if_pos, List.mem_singleton] at hc
    subst hc; rfl
  · unfold natRepr at hc
    rw [if_neg h] at hc
    rw [List.mem_reverse] at hc
    obtain ⟨d, hd, rfl⟩ := List.mem_map.mp hc
    exact digitChar_isDigit d (Nat.digits_lt_base (by norm_num) hd)

theorem natRepr_ne_comma (n : Nat) (c : Char) (hc : c ∈ natRepr n) :
    c ≠ ',' := by
  intro heq
  have := natRepr_isDigit n c hc
  rw [heq] at this
  simp [Char.isDigit] at this

theorem splitComma_ne_nil (cs : List Char) : splitComma cs ≠ [] := by
  induction cs with
  | nil => simp [splitComma]
  | cons c rest ih =>
    by_cases hc : c = ','
    · simp [splitComma, hc]
    · simp only [splitComma, if_neg hc]
      cases h : splitComma rest with
      | nil => simp
      | cons g gs => simp

theorem splitComma_no_comma (cs : List Char) (h : ∀ c ∈ cs, c ≠ ',') :
    splitComma cs = [cs] := by
  induction cs with
  | nil => rfl
  | cons c rest ih =>
    have hc : c ≠ ',' := h c (List.mem_cons_self c rest)
    have hrest : ∀ x ∈ rest, x ≠ ',' := fun x hx => h x (List.mem_cons_of_mem c hx)
    simp only [splitComma, if_neg hc, ih hrest]

theorem splitComma_append (xs ys : List Char) (h : ∀ c ∈ xs, c ≠ ',') :
    splitComma (xs ++ ',' :: ys) = xs :: splitComma ys := by
  induction xs with
  | nil => simp [splitComma]
  | cons c rest ih =>
    have hc : c ≠ ',' := h c (List.mem_cons_self c rest)
    have hrest : ∀ x ∈ rest, x ≠ ',' := fun x hx => h x (List.mem_cons_of_mem c hx)
    simp only [List.cons_append, splitComma, if_neg hc, List.append_eq]
    rw [ih hrest]

theorem encodeClicks_ne_nil (n : Nat) (rest : List Nat) :
    encodeClicks (n :: rest) ≠ [] := by
  cases rest with
  | nil => exact natRepr_ne_nil n
  | cons m rs =>
    simp only [encodeClicks]
    intro h
    exact natRepr_ne_nil n (List.append_eq_nil.mp h).1

theorem splitComma_encodeClicks (n : Nat) (rest : List Nat) :
    splitComma (encodeClicks (n :: rest)) = (n :: rest).map natRepr := by
  induction rest generalizing n with
  | nil =>
    simp only [encodeClicks, List.map_cons, List.map_nil]
    exact splitComma_no_comma (natRepr n) (natRepr_ne_comma n)
  | cons m rs ih =>
    simp only [encodeClicks]
    rw [splitComma_append (natRepr n) (encodeClicks (m :: rs)) (natRepr_ne_comma n)]
    rcases hsc : encodeClicks (m :: rs) with _ | ⟨c, cs⟩
    · exact absurd hsc (encodeClicks_ne_nil m rs)
    · rw [← hsc, ih m]
      simp

theorem decodeClicks_encodeClicks (ns : List Nat) :
    decodeClicks (encodeClicks ns) = ns := by
  cases ns with
  | nil => rfl
  | cons n rest =>
    unfold decodeClicks
    rw [if_neg (encodeClicks_ne_nil n rest), splitComma_encodeClicks n rest]
    rw [List.map_map]
    have : parseNat ∘ natRepr = id := funext parseNat_natRepr
    rw [this, List.map_id]

theorem encodeClicks_injective (ns ms : List Nat)
    (h : encodeClicks ns = encodeClicks ms) : ns = ms := by
  have := congrArg decodeClicks h
  rwa [decodeClicks_encodeClicks, decodeClicks_encodeClicks] at this

theorem takeWhile_all_append (p : Char → Bool) (xs : List Char) (y : Char)
    (zs : List Char) (hxs : ∀ c ∈ xs, p c = true) (hy : p y = false) :
    List.takeWhile p (xs ++ y :: zs) = xs := by
  induction xs with
  | nil => simp [List.takeWhile_cons, hy]
  | cons c cs ih =>
    have hc : p c = true := hxs c (List.mem_cons_self c cs)
    have hcs : ∀ x ∈ cs, p x = true := fun x hx => hxs x (List.mem_cons_of_mem c hx)
    simp [List.takeWhile_cons, hc, ih hcs]

theorem dropWhile_all_append (p : Char → Bool) (xs : List Char) (y : Char)
    (zs : List Char) (hxs : ∀ c ∈ xs, p c = true) (hy : p y = false) :
    List.dropWhile p (xs ++ y :: zs) = y :: zs := by
  induction xs with
  | nil => simp [List.dropWhile_cons, hy]
  | cons c cs ih =>
    have hc : p c = true := hxs c (List.mem_cons_self c cs)
    have hcs : ∀ x ∈ cs, p x = true := fun x hx => hxs x (List.mem_cons_of_mem c hx)
    simp [List.dropWhile_cons, hc, ih hcs]

theorem digitRun_append_inj (d1 d2 : List Char) (x1 x2 : Char)
    (r1 r2 : List Char)
    (hd1 : ∀ c ∈ d1, c.isDigit = true) (hd2 : ∀ c ∈ d2, c.isDigit = true)
    (hx1 : x1.isDigit = false) (hx2 : x2.isDigit = false)
    (h : d1 ++ x1 :: r1 = d2 ++ x2 :: r2) :
    d1 = d2 ∧ x1 = x2 ∧ r1 = r2 := by
  have htw := congrArg (List.takeWhile Char.isDigit) h
  rw [takeWhile_all_append Char.isDigit d1 x1 r1 hd1 hx1,
    takeWhile_all_append Char.isDigit d2 x2 r2 hd2 hx2] at htw
  have hdw := congrArg (List.dropWhile Char.isDigit) h
  rw [dropWhile_all_append Char.isDigit d1 x1 r1 hd1 hx1,
    dropWhile_all_append Char.isDigit d2 x2 r2 hd2 hx2] at hdw
  have hcons : x1 = x2 ∧ r1 = r2 := by
    injection hdw with ha hb
    exact ⟨ha, hb⟩
  exact ⟨htw, hcons.1, hcons.2⟩

theorem intRepr_nonneg (n : Int) (hn : 0 ≤ n) :
    intRepr n = natRepr n.natAbs := by
  unfold intRepr
  rw [if_neg (by omega)]

theorem intRepr_neg (n : Int) (hn : n < 0) :
    intRepr n = '-' :: natRepr n.natAbs := by
  unfold intRepr
  rw [if_pos hn]

theorem exportFilename_reverse (lvlName : List Char) (t : Nat) :
    (exportFilename lvlName t).reverse =
      fileExt.reverse ++ ((intRepr (toInt32 t)).reverse ++
        '_' :: (sanitizeName lvlName).reverse) := by
  simp [exportFilename, List.reverse_append]

theorem exportFilename_wrap_injective (l1 l2 : List Char) (t1 t2 : Nat)
    (h : exportFilename l1 t1 = exportFilename l2 t2) :
    toInt32 t1 = toInt32 t2 := by
  have hrev := congrArg List.reverse h
  rw [exportFilename_reverse, exportFilename_reverse] at hrev
  have hmid := List.append_cancel_left hrev
  have hdig : ∀ v : Int, ∀ c ∈ (natRepr v.natAbs).reverse, c.isDigit = true := by
    intro v c hc
    exact natRepr_isDigit v.natAbs c (List.mem_reverse.mp hc)
  by_cases h1 : toInt32 t1 < 0 <;> by_cases h2 : toInt32 t2 < 0
  · rw [intRepr_neg _ h1, intRepr_neg _ h2] at hmid
    simp only [List.reverse_cons, List.append_assoc,
      List.singleton_append] at hmid
    obtain ⟨hd, -, -⟩ := digitRun_append_inj _ _ '-' '-' _ _
      (hdig _) (hdig _) (by decide) (by decide) hmid
    have := natRepr_injective _ _ (List.reverse_injective hd)
    omega
  · rw [intRepr_neg _ h1, intRepr_nonneg _ (by omega)] at hmid
    simp only [List.reverse_cons, List.append_assoc,
      List.singleton_append] at hmid
    obtain ⟨-, hx, -⟩ := digitRun_append_inj _ _ '-' '_' _ _
      (hdig _) (hdig _) (by decide) (by decide) hmid
    cases hx
  · rw [intRepr_nonneg _ (by omega), intRepr_neg _ h2] at hmid
    simp only [List.reverse_cons, List.append_assoc,
      List.singleton_append] at hmid
    obtain ⟨-, hx, -⟩ := digitRun_append_inj _ _ '_' '-' _ _
      (hdig _) (hdig _) (by decide) (by decide) hmid
    cases hx
  · rw [intRepr_nonneg _ (by omega), intRepr_nonneg _ (by omega)] at hmid
    obtain ⟨hd, -, -⟩ := digitRun_append_inj _ _ '_' '_' _ _
      (hdig _) (hdig _) (by decide) (by decide) hmid
    have := natRepr_injective _ _ (List.reverse_injective hd)
    omega

theorem toInt32_mod_injective (t1 t2 : Nat) (h : toInt32 t1 = toInt32 t2) :
    t1 % 2 ^ 32 = t2 % 2 ^ 32 := by
  unfold toInt32 at h
  have hlt1 : t1 % 2 ^ 32 < 2 ^ 32 := Nat.mod_lt _ (by norm_num)
  have hlt2 : t2 % 2 ^ 32 < 2 ^ 32 := Nat.mod_lt _ (by norm_num)
  by_cases h1 : t1 % 2 ^ 32 < 2 ^ 31
  · rw [if_pos h1] at h
    by_cases h2 : t2 % 2 ^ 32 < 2 ^ 31
    · rw [if_pos h2] at h
      omega
    · rw [if_neg h2] at h
      omega
  · rw [if_neg h1] at h
    by_cases h2 : t2 % 2 ^ 32 < 2 ^ 31
    · rw [if_pos h2] at h
      omega
    · rw [if_neg h2] at h
      omega

theorem sanitizeName_alphabet (l : List Char) (c : Char)
    (hc : c ∈ sanitizeName l) : c.isAlphanum = true ∨ c = '_' := by
  obtain ⟨x, _, rfl⟩ := List.mem_map.mp hc
  by_cases hx : x.isAlphanum
  · left; simp [hx]
  · right; simp [hx]

theorem isSolution_lt {σ : Type} (O : DFSOracle σ) (maxF : Nat) (s : σ)
    (f : Nat) (S : List Bool) (h : isSolution O maxF s f S = true) :
    f < maxF := by
  cases S with
  | nil =>
    simp only [isSolution, Bool.and_eq_true, decide_eq_true_eq] at h
    exact h.1
  | cons b T =>
    simp only [isSolution, Bool.and_eq_true, decide_eq_true_eq] at h
    exact h.1.1.1

theorem isSolution_length {σ : Type} (O : DFSOracle σ) (maxF : Nat) :
    ∀ (S : List Bool) (s : σ) (f : Nat),
      isSolution O maxF s f S = true → f + S.length < maxF := by
  intro S
  induction S with
  | nil =>
    intro s f h
    simpa [isSolution] using isSolution_lt O maxF s f [] h
  | cons b T ih =>
    intro s f h
    simp only [isSolution, Bool.and_eq_true, decide_eq_true_eq] at h
    have := ih (stepSim O s b) (f + 1) h.2
    simp only [List.length_cons]
    omega

theorem dfsGo_length {σ : Type} (O : DFSOracle σ) (maxF : Nat) (s0 : σ) :
    ∀ (fuel : Nat) (s : σ) (f : Nat) (S : List Bool),
      dfsGo O maxF s0 fuel s f = some S → S.length ≤ fuel := by
  intro fuel
  induction fuel with
  | zero => intro s f S h; simp [dfsGo] at h
  | succ fuel ih =>
    intro s f S h
    simp only [dfsGo] at h
    by_cases hm : maxF ≤ f
    · rw [if_pos hm] at h; cases h
    · rw [if_neg hm] at h
      by_cases hs : 100 ≤ O.getCurrentPercentInt s
      · rw [if_pos hs] at h
        cases h
        simp
      · rw [if_neg hs] at h
        by_cases hdead : O.playerDead s = true
        · rw [if_pos hdead] at h; cases h
        · rw [if_neg hdead] at h
          rcases h1 : dfsGo O maxF s0 fuel (stepSim O s false) (f + 1)
            with _ | T1
          · rw [h1] at h
            rcases h2 : dfsGo O maxF s0 fuel (stepSim O s0 true) (f + 1)
              with _ | T2
            · rw [h2] at h; cases h
            · rw [h2] at h
              cases h
              have := ih (stepSim O s0 true) (f + 1) T2 h2
              simp only [List.length_cons]
              omega
          · rw [h1] at h
            cases h
            have := ih (stepSim O s false) (f + 1) T1 h1
            simp only [List.length_cons]
            omega

theorem dfsTGo_expired {σ : Type} (O : DFSOracle σ) (maxF D c : Nat)
    (s0 : σ) (fuel : Nat) (s : σ) (f now : Nat) (h : D < now) :
    dfsTGo O maxF D c s0 fuel s f now = (none, now, []) := by
  cases fuel with
  | zero => rfl
  | succ fuel => simp [dfsTGo, if_pos h]

theorem dfsTGo_now_le {σ : Type} (O : DFSOracle σ) (maxF D c : Nat)
    (s0 : σ) :
    ∀ (fuel : Nat) (s : σ) (f now : Nat),
      now ≤ (dfsTGo O maxF D c s0 fuel s f now).2.1 := by
  intro fuel
  induction fuel with
  | zero => intro s f now; exact le_refl now
  | succ fuel ih =>
    intro s f now
    simp only [dfsTGo]
    split
    · exact le_refl now
    · split
      · exact le_refl now
      · split
        · exact le_refl now
        · split
          · exact le_refl now
          · rcases h1 : dfsTGo O maxF D c s0 fuel (stepSim O s false) (f + 1) (now + c)
              with ⟨o1, n1, ts1⟩
            have hle1 : now + c ≤ n1 := by
              have := ih (stepSim O s false) (f + 1) (now + c)
              rw [h1] at this
              exact this
            cases o1 with
            | some T => simp only; omega
            | none =>
              simp only
              rcases h2 : dfsTGo O maxF D c s0 fuel (stepSim O s0 true) (f + 1) (n1 + c)
                with ⟨o2, n2, ts2⟩
              have hle2 : n1 + c ≤ n2 := by
                have := ih (stepSim O s0 true) (f + 1) (n1 + c)
                rw [h2] at this
                exact this
              cases o2 with
              | some T => simp only; omega
              | none => simp only; omega

theorem dfsTGo_mem_le {σ : Type} (O : DFSOracle σ) (maxF D c : Nat)
    (s0 : σ) :
    ∀ (fuel : Nat) (s : σ) (f now t : Nat),
      t ∈ (dfsTGo O maxF D c s0 fuel s f now).2.2 →
      t ≤ (dfsTGo O maxF D c s0 fuel s f now).2.1 := by
  intro fuel
  induction fuel with
  | zero => intro s f now t ht; simp [dfsTGo] at ht
  | succ fuel ih =>
    intro s f now t ht
    by_cases hD : D < now
    · rw [dfsTGo_expired O maxF D c s0 (fuel + 1) s f now hD] at ht
      simp at ht
    · by_cases hm : maxF ≤ f
      · simp [dfsTGo, if_neg hD, if_pos hm] at ht
      · by_cases hs : 100 ≤ O.getCurrentPercentInt s
        · simp [dfsTGo, if_neg hD, if_neg hm, if_pos hs] at ht
        · by_cases hdead : O.playerDead s = true
          · simp [dfsTGo, if_neg hD, if_neg hm, if_neg hs, hdead] at ht
          · simp only [dfsTGo, if_neg hD, if_neg hm, if_neg hs, if_neg hdead]
              at ht ⊢
            rcases h1 : dfsTGo O maxF D c s0 fuel (stepSim O s false) (f + 1)
              (now + c) with ⟨o1, n1, ts1⟩
            rw [h1] at ht
            have hn1 : now + c ≤ n1 := by
              have := dfsTGo_now_le O maxF D c s0 fuel (stepSim O s false) (f + 1)
                (now + c)
              rw [h1] at this
              exact this
            cases o1 with
            | some T =>
              dsimp only at ht ⊢
              rcases List.mem_cons.mp ht with rfl | ht
              · omega
              · have := ih (stepSim O s false) (f + 1) (now + c) t
                rw [h1] at this
                exact this ht
            | none =>
              dsimp only at ht ⊢
              rcases h2 : dfsTGo O maxF D c s0 fuel (stepSim O s0 true) (f + 1)
                (n1 + c) with ⟨o2, n2, ts2⟩
              rw [h2] at ht
              have hn2 : n1 + c ≤ n2 := by
                have := dfsTGo_now_le O maxF D c s0 fuel (stepSim O s0 true) (f + 1)
                  (n1 + c)
                rw [h2] at this
                exact this
              have hts1 : t ∈ ts1 → t ≤ n1 := by
                intro hmem
                have := ih (stepSim O s false) (f + 1) (now + c) t
                rw [h1] at this
                exact this hmem
              have hts2 : t ∈ ts2 → t ≤ n2 := by
                intro hmem
                have := ih (stepSim O s0 true) (f + 1) (n1 + c) t
                rw [h2] at this
                exact this hmem
              cases o2 with
              | some T =>
                dsimp only at ht ⊢
                rcases List.mem_cons.mp ht with rfl | ht
                · omega
                · rcases List.mem_append.mp ht with ht | ht
                  · have := hts1 ht; omega
                  · rcases List.mem_cons.mp ht with rfl | ht
                    · omega
                    · exact hts2 ht
              | none =>
                dsimp only at ht ⊢
                rcases List.mem_cons.mp ht with rfl | ht
                · omega
                · rcases List.mem_append.mp ht with ht | ht
                  · have := hts1 ht; omega
                  · rcases List.mem_cons.mp ht with rfl | ht
                    · omega
                    · exact hts2 ht

theorem dfsTGo_post_len {σ : Type} (O : DFSOracle σ) (maxF D c : Nat)
    (s0 : σ) :
    ∀ (fuel : Nat) (s : σ) (f now : Nat),
      (((dfsTGo O maxF D c s0 fuel s f now).2.2).filter
        (fun t => decide (D < t))).length ≤ fuel := by
  intro fuel
  induction fuel with
  | zero => intro s f now; simp [dfsTGo]
  | succ fuel ih =>
    intro s f now
    by_cases hD : D < now
    · rw [dfsTGo_expired O maxF D c s0 (fuel + 1) s f now hD]
      simp
    · by_cases hm : maxF ≤ f
      · simp [dfsTGo, if_neg hD, if_pos hm]
      · by_cases hs : 100 ≤ O.getCurrentPercentInt s
        · simp [dfsTGo, if_neg hD, if_neg hm, if_pos hs]
        · by_cases hdead : O.playerDead s = true
          · simp [dfsTGo, if_neg hD, if_neg hm, if_neg hs, hdead]
          · simp only [dfsTGo, if_neg hD, if_neg hm, if_neg hs, if_neg hdead]
            rcases h1 : dfsTGo O maxF D c s0 fuel (stepSim O s false) (f + 1)
              (now + c) with ⟨o1, n1, ts1⟩
            have hts1 : (ts1.filter (fun t => decide (D < t))).length ≤ fuel := by
              have := ih (stepSim O s false) (f + 1) (now + c)
              rw [h1] at this
              exact this
            cases o1 with
            | some T =>
              dsimp only
              rw [List.filter_cons]
              simp only [decide_eq_true_eq, hD, if_false]
              omega
            | none =>
              dsimp only
              by_cases hn1 : D < n1
              · have hexp := dfsTGo_expired O maxF D c s0 fuel (stepSim O s0 true)
                  (f + 1) (n1 + c) (by omega)
                rcases h2 : dfsTGo O maxF D c s0 fuel (stepSim O s0 true) (f + 1)
                  (n1 + c) with ⟨o2, n2, ts2⟩
                rw [h2] at hexp
                simp only [Prod.mk.injEq] at hexp
                obtain ⟨ho2, hn2, hts2⟩ := hexp
                subst ho2; subst hts2
                dsimp only
                rw [List.filter_append, List.filter_cons, List.filter_cons]
                simp only [decide_eq_true_eq, hD, if_false, hn1, if_true,
                  List.filter_nil]
                simp only [List.length_append, List.length_cons,
                  List.length_nil]
                omega
              · have hmem1 : ∀ t ∈ ts1, t ≤ n1 := by
                  intro t hmem
                  have := dfsTGo_mem_le O maxF D c s0 fuel (stepSim O s false)
                    (f + 1) (now + c) t
                  rw [h1] at this
                  exact this hmem
                have hfilter1 : ts1.filter (fun t => decide (D < t)) = [] := by
                  rw [List.filter_eq_nil_iff]
                  intro t hmem
                  simp only [decide_eq_true_eq]
                  have := hmem1 t hmem
                  omega
                rcases h2 : dfsTGo O maxF D c s0 fuel (stepSim O s0 true) (f + 1)
                  (n1 + c) with ⟨o2, n2, ts2⟩
                have hts2 : (ts2.filter (fun t => decide (D < t))).length ≤ fuel := by
                  have := ih (stepSim O s0 true) (f + 1) (n1 + c)
                  rw [h2] at this
                  exact this
                cases o2 with
                | some T =>
                  dsimp only
                  rw [List.filter_append, List.filter_cons, List.filter_cons]
                  simp only [decide_eq_true_eq, hD, if_false, hn1, hfilter1,
                    List.length_append, List.length_nil]
                  omega
                | none =>
                  dsimp only
                  rw [List.filter_append, List.filter_cons, List.filter_cons]
                  simp only [decide_eq_true_eq, hD, if_false, hn1, hfilter1,
                    List.length_append, List.length_nil]
                  omega

theorem dfsTGo_quiet {σ : Type} (O : DFSOracle σ) (maxF D c : Nat)
    (s0 : σ) :
    ∀ (fuel : Nat) (s : σ) (f now : Nat),
      (dfsTGo O maxF D c s0 fuel s f now).2.1 ≤ D →
      dfsGo O maxF s0 fuel s f = (dfsTGo O maxF D c s0 fuel s f now).1 := by
  intro fuel
  induction fuel with
  | zero => intro s f now _; rfl
  | succ fuel ih =>
    intro s f now hfin
    by_cases hD : D < now
    · rw [dfsTGo_expired O maxF D c s0 (fuel + 1) s f now hD] at hfin
      dsimp only at hfin
      omega
    · by_cases hm : maxF ≤ f
      · simp [dfsGo, dfsTGo, if_neg hD, if_pos hm]
      · by_cases hs : 100 ≤ O.getCurrentPercentInt s
        · simp [dfsGo, dfsTGo, if_neg hD, if_neg hm, if_pos hs]
        · by_cases hdead : O.playerDead s = true
          · simp [dfsGo, dfsTGo, if_neg hD, if_neg hm, if_neg hs, hdead]
          · simp only [dfsTGo, if_neg hD, if_neg hm, if_neg hs, if_neg hdead]
              at hfin ⊢
            simp only [dfsGo, if_neg hm, if_neg hs, if_neg hdead]
            rcases h1 : dfsTGo O maxF D c s0 fuel (stepSim O s false) (f + 1)
              (now + c) with ⟨o1, n1, ts1⟩
            rw [h1] at hfin
            cases o1 with
            | some T =>
              dsimp only at hfin ⊢
              have := ih (stepSim O s false) (f + 1) (now + c)
              rw [h1] at this
              rw [this hfin]
            | none =>
              dsimp only at hfin ⊢
              rcases h2 : dfsTGo O maxF D c s0 fuel (stepSim O s0 true) (f + 1)
                (n1 + c) with ⟨o2, n2, ts2⟩
              rw [h2] at hfin
              have hn2 : n1 + c ≤ n2 := by
                have := dfsTGo_now_le O maxF D c s0 fuel (stepSim O s0 true) (f + 1)
                  (n1 + c)
                rw [h2] at this
                exact this
              cases o2 with
              | some T =>
                dsimp only at hfin ⊢
                have hq1 := ih (stepSim O s false) (f + 1) (now + c)
                rw [h1] at hq1
                have hq2 := ih (stepSim O s0 true) (f + 1) (n1 + c)
                rw [h2] at hq2
                rw [hq1 (by omega : n1 ≤ D), hq2 hfin]
              | none =>
                dsimp only at hfin ⊢
                have hq1 := ih (stepSim O s false) (f + 1) (now + c)
                rw [h1] at hq1
                have hq2 := ih (stepSim O s0 true) (f + 1) (n1 + c)
                rw [h2] at hq2
                rw [hq1 (by omega : n1 ≤ D), hq2 hfin]

theorem dfsTGo_found {σ : Type} (O : DFSOracle σ) (maxF D c : Nat)
    (s0 : σ) :
    ∀ (fuel : Nat) (s : σ) (f now : Nat) (S : List Bool),
      (dfsTGo O maxF D c s0 fuel s f now).1 = some S →
      dfsGo O maxF s0 fuel s f = some S := by
  intro fuel
  induction fuel with
  | zero => intro s f now S h; simp [dfsTGo] at h
  | succ fuel ih =>
    intro s f now S hfound
    by_cases hD : D < now
    · rw [dfsTGo_expired O maxF D c s0 (fuel + 1) s f now hD] at hfound
      simp at hfound
    · by_cases hm : maxF ≤ f
      · simp [dfsTGo, if_neg hD, if_pos hm] at hfound
      · by_cases hs : 100 ≤ O.getCurrentPercentInt s
        · simp only [dfsTGo, if_neg hD, if_neg hm, if_pos hs] at hfound
          cases hfound
          simp [dfsGo, if_neg hm, if_pos hs]
        · by_cases hdead : O.playerDead s = true
          · simp [dfsTGo, if_neg hD, if_neg hm, if_neg hs, hdead] at hfound
          · simp only [dfsTGo, if_neg hD, if_neg hm, if_neg hs, if_neg hdead]
              at hfound
            simp only [dfsGo, if_neg hm, if_neg hs, if_neg hdead]
            rcases h1 : dfsTGo O maxF D c s0 fuel (stepSim O s false) (f + 1)
              (now + c) with ⟨o1, n1, ts1⟩
            rw [h1] at hfound
            cases o1 with
            | some T =>
              dsimp only at hfound
              cases hfound
              have := ih (stepSim O s false) (f + 1) (now + c) T
              rw [h1] at this
              rw [this rfl]
            | none =>
              dsimp only at hfound
              rcases h2 : dfsTGo O maxF D c s0 fuel (stepSim O s0 true) (f + 1)
                (n1 + c) with ⟨o2, n2, ts2⟩
              rw [h2] at hfound
              cases o2 with
              | some T =>
                dsimp only at hfound
                cases hfound
                have hne : ¬ D < n1 + c := by
                  intro hlt
                  have hexp := dfsTGo_expired O maxF D c s0 fuel (stepSim O s0 true)
                    (f + 1) (n1 + c) hlt
                  rw [h2] at hexp
                  simp at hexp
                have hq1 := dfsTGo_quiet O maxF D c s0 fuel (stepSim O s false)
                  (f + 1) (now + c)
                rw [h1] at hq1
                have hq2 := ih (stepSim O s0 true) (f + 1) (n1 + c) T
                rw [h2] at hq2
                rw [hq1 (by omega : n1 ≤ D), hq2 rfl]
              | none =>
                dsimp only at hfound
                cases hfound

theorem mainDfsGo_all_false :
    ∀ (k fuel f : Nat), f + k = 501 → k < fuel →
      mainDfsGo fuel f = some (List.replicate k false) := by
  intro k
  induction k with
  | zero =>
    intro fuel f hf hfuel
    have hf501 : f = 501 := by omega
    subst hf501
    cases fuel with
    | zero => omega
    | succ fl =>
      simp only [mainDfsGo]
      rw [if_neg (by decide : ¬ MAIN_MAX_SEARCH_FRAMES ≤ 501),
        if_pos (by decide : 0 < 501 ∧ SUCCESS_X_THRESHOLD < 501 * 10)]
      rfl
  | succ k ih =>
    intro fuel f hf hfuel
    have hf500 : f ≤ 500 := by omega
    cases fuel with
    | zero => omega
    | succ fl =>
      simp only [mainDfsGo]
      have hmax : MAIN_MAX_SEARCH_FRAMES = 7200 := by decide
      have hthr : SUCCESS_X_THRESHOLD = 5000 := by decide
      rw [if_neg (by omega : ¬ MAIN_MAX_SEARCH_FRAMES ≤ f),
        if_neg (by rw [hthr]; omega : ¬ (0 < f ∧ SUCCESS_X_THRESHOLD < f * 10))]
      rw [ih fl (f + 1) (by omega) (by omega)]
      rfl

theorem mainDfs_all_false :
    ∀ (k f : Nat), f + k = 501 → mainDfs f = some (List.replicate k false) := by
  intro k f hf
  unfold mainDfs
  have hmax : MAIN_MAX_SEARCH_FRAMES = 7200 := by decide
  exact mainDfsGo_all_false k (MAIN_MAX_SEARCH_FRAMES - f) f hf (by omega)

theorem runTrial_played_le {σ : Type} (O : PlaySim σ) :
    ∀ (seq : List Bool) (k : Nat) (s : σ),
      (runTrial O seq k s).2.1 ≤ k + seq.length := by
  intro seq
  induction seq with
  | nil => intro k s; simp [runTrial]
  | cons b rest ih =>
    intro k s
    simp only [runTrial, List.length_cons]
    by_cases hsucc : 100 ≤ O.getCurrentPercentInt (stepPlay O s b)
    · rw [if_pos hsucc]; dsimp only; omega
    · rw [if_neg hsucc]
      by_cases hact : O.isGameplayActive (stepPlay O s b) = true
      · rw [if_pos hact]
        have := ih (k + 1) (stepPlay O s b)
        omega
      · rw [if_neg hact]; dsimp only; omega

theorem runTrial_success {σ : Type} (O : PlaySim σ) :
    ∀ (seq : List Bool) (k : Nat) (s : σ) (fr : Nat),
      (runTrial O seq k s).1 = some fr →
      ∃ j, fr = k + j ∧ j < seq.length ∧
        firstSuccessIdx O (replayStates O seq s) = some j ∧
        ∀ st ∈ (replayStates O seq s).take j, O.isGameplayActive st = true := by
  intro seq
  induction seq with
  | nil => intro k s fr h; simp [runTrial] at h
  | cons b rest ih =>
    intro k s fr h
    simp only [runTrial] at h
    by_cases hsucc : 100 ≤ O.getCurrentPercentInt (stepPlay O s b)
    · rw [if_pos hsucc] at h
      dsimp only at h
      cases h
      refine ⟨0, by omega, by simp, ?_, by simp⟩
      simp [replayStates, firstSuccessIdx, hsucc]
    · rw [if_neg hsucc] at h
      by_cases hact : O.isGameplayActive (stepPlay O s b) = true
      · rw [if_pos hact] at h
        obtain ⟨j1, hfr, hlen, hidx, htake⟩ := ih (k + 1) (stepPlay O s b) fr h
        refine ⟨j1 + 1, by omega, by simp; omega, ?_, ?_⟩
        · simp only [replayStates, firstSuccessIdx, if_neg hsucc, hidx]
          rfl
        · intro st hst
          simp only [replayStates, List.take_succ_cons, List.mem_cons] at hst
          rcases hst with rfl | hst
          · exact hact
          · exact htake st hst
      · rw [if_neg hact] at h
        dsimp only at h
        cases h

theorem uniformIntDist_lower (lo hi raw : Nat) : lo ≤ uniformIntDist lo hi raw := by
  simp [uniformIntDist]

theorem uniformIntDist_upper (lo hi raw : Nat) (h : lo ≤ hi) :
    uniformIntDist lo hi raw ≤ hi := by
  have hpos : 0 < hi + 1 - lo := by omega
  have := Nat.mod_lt raw hpos
  simp only [uniformIntDist]
  omega

theorem uniformIntDist_onto (lo hi v : Nat) (hlo : lo ≤ v) (hhi : v ≤ hi) :
    uniformIntDist lo hi (v - lo) = v := by
  simp only [uniformIntDist]
  rw [Nat.mod_eq_of_lt (by omega)]
  omega

theorem uniformRealDist_lower (lo hi r : ℚ) (hlohi : lo ≤ hi) (hr : 0 ≤ r) :
    lo ≤ uniformRealDist lo hi r := by
  have : 0 ≤ (hi - lo) * r := mul_nonneg (by linarith) hr
  simp only [uniformRealDist]
  linarith

theorem uniformRealDist_upper (lo hi r : ℚ) (hlohi : lo ≤ hi) (hr : r ≤ 1) :
    uniformRealDist lo hi r ≤ hi := by
  have : (hi - lo) * r ≤ (hi - lo) * 1 :=
    mul_le_mul_of_nonneg_left hr (by linarith)
  simp only [uniformRealDist]
  linarith

theorem min_search_frames : min MAX_SEARCH_FRAMES 600 = 600 := by decide

theorem genSeqFor_length_lower (rng : Rng) (t : Nat) :
    60 ≤ (genSeqFor rng t).length := by
  simp only [genSeqFor, genSeq, List.length_map, List.length_range]
  exact uniformIntDist_lower 60 (min MAX_SEARCH_FRAMES 600) (rng.rawLen t)

theorem genSeqFor_length_upper (rng : Rng) (t : Nat) :
    (genSeqFor rng t).length ≤ 600 := by
  simp only [genSeqFor, genSeq, List.length_map, List.length_range,
    min_search_frames]
  exact uniformIntDist_upper 60 600 (rng.rawLen t) (by omega)

theorem solverLoopGo_trials_ge {σ : Type} (O : PlaySim σ) (rng : Rng)
    (deadline c : Nat) :
    ∀ (fuel trial now : Nat) (s : σ),
      trial ≤ (solverLoopGo O rng deadline c fuel trial now s).trials := by
  intro fuel
  induction fuel with
  | zero => intro trial now s; exact le_refl trial
  | succ fuel ih =>
    intro trial now s
    simp only [solverLoopGo]
    by_cases ht : MAX_TRIALS ≤ trial
    · rw [if_pos ht]
    · rw [if_neg ht]
      by_cases hd : deadline ≤ now
      · rw [if_pos hd]
      · rw [if_neg hd]
        rcases hr : runTrial O (genSeqFor rng trial) 0 (warmStart O s)
          with ⟨o, played, s1⟩
        cases o with
        | some fr => dsimp only; omega
        | none =>
          dsimp only
          have := ih (trial + 1) (now + c * (2 + played)) s1
          omega

theorem solverLoopGo_now_le {σ : Type} (O : PlaySim σ) (rng : Rng)
    (deadline c : Nat) :
    ∀ (fuel trial now : Nat) (s : σ),
      (solverLoopGo O rng deadline c fuel trial now s).now ≤
        max now (deadline + c * 602) := by
  intro fuel
  induction fuel with
  | zero => intro trial now s; exact le_max_left now _
  | succ fuel ih =>
    intro trial now s
    simp only [solverLoopGo]
    by_cases ht : MAX_TRIALS ≤ trial
    · rw [if_pos ht]; exact le_max_left now _
    · rw [if_neg ht]
      by_cases hd : deadline ≤ now
      · rw [if_pos hd]; exact le_max_left now _
      · rw [if_neg hd]
        rcases hr : runTrial O (genSeqFor rng trial) 0 (warmStart O s)
          with ⟨o, played, s1⟩
        have hplayed : played ≤ 600 := by
          have hle := runTrial_played_le O (genSeqFor rng trial) 0 (warmStart O s)
          rw [hr] at hle
          have := genSeqFor_length_upper rng trial
          dsimp only at hle
          omega
        have hstep : now + c * (2 + played) ≤ deadline + c * 602 := by
          have hmul : c * (2 + played) ≤ c * 602 :=
            Nat.mul_le_mul_left c (by omega)
          omega
        cases o with
        | some fr =>
          dsimp only
          exact le_max_of_le_right hstep
        | none =>
          dsimp only
          have := ih (trial + 1) (now + c * (2 + played)) s1
          have hmax : max (now + c * (2 + played)) (deadline + c * 602) =
              deadline + c * 602 := max_eq_right hstep
          rw [hmax] at this
          exact le_max_of_le_right this

theorem solverLoopGo_found {σ : Type} (O : PlaySim σ) (rng : Rng)
    (deadline c : Nat) :
    ∀ (fuel trial now : Nat) (s : σ) (info : FoundInfo σ),
      (solverLoopGo O rng deadline c fuel trial now s).found = some info →
      info.seq = genSeqFor rng info.trial ∧
      (∃ sp, info.startState = warmStart O sp) ∧
      (runTrial O info.seq 0 info.startState).1 = some info.frame := by
  intro fuel
  induction fuel with
  | zero => intro trial now s info h; simp [solverLoopGo] at h
  | succ fuel ih =>
    intro trial now s info h
    simp only [solverLoopGo] at h
    by_cases ht : MAX_TRIALS ≤ trial
    · rw [if_pos ht] at h; simp at h
    · rw [if_neg ht] at h
      by_cases hd : deadline ≤ now
      · rw [if_pos hd] at h; simp at h
      · rw [if_neg hd] at h
        rcases hr : runTrial O (genSeqFor rng trial) 0 (warmStart O s)
          with ⟨o, played, s1⟩
        rw [hr] at h
        cases o with
        | some fr =>
          dsimp only at h
          cases h
          refine ⟨rfl, ⟨s, rfl⟩, ?_⟩
          rw [hr]
        | none =>
          dsimp only at h
          exact ih (trial + 1) (now + c * (2 + played)) s1 info h

/-- C1: replay determinism — a `Found` sequence of the randomized search,
replayed frame-by-frame against a freshly reset simulation instance
(reset plus the solver's two warm-up ticks), reproduces the success state:
the first success index of the replay equals the frame at which the
finding trial succeeded, two independent identically-initialized instances
agree on that index, and no failure occurs before it.  The hypothesis
`hreset` is the section 4.1 contract that `resetLevelFromStart` returns
the simulation to its initial pre-run state regardless of current state. -/
theorem claim_c1_replay_determinism {σ : Type} (O : PlaySim σ) (rng : Rng)
    (deadline c : Nat) (s : σ) (info : FoundInfo σ)
    (hfound : (solverRun O rng deadline c s).found = some info)
    (hreset : ∀ a b : σ, O.resetLevelFromStart a = O.resetLevelFromStart b)
    (a b : σ) :
    firstSuccessIdx O (replayStates O info.seq (warmStart O a)) =
      some info.frame ∧
    firstSuccessIdx O (replayStates O info.seq (warmStart O a)) =
      firstSuccessIdx O (replayStates O info.seq (warmStart O b)) ∧
    ∀ st ∈ (replayStates O info.seq (warmStart O a)).take info.frame,
      O.isGameplayActive st = true := by
  obtain ⟨hseq, ⟨sp, hstart⟩, hrun⟩ :=
    solverLoopGo_found O rng deadline c MAX_TRIALS 0 0
      (if O.isGameplayActive s then s else O.startGame s) info hfound
  have hwarm : ∀ x y : σ, warmStart O x = warmStart O y := by
    intro x y
    unfold warmStart
    rw [hreset x y]
  obtain ⟨j, hj, hjlen, hidx, htake⟩ :=
    runTrial_success O info.seq 0 info.startState info.frame hrun
  have hjf : j = info.frame := by omega
  subst hjf
  have hsa : warmStart O a = info.startState := by
    rw [hstart]; exact hwarm a sp
  have hsb : warmStart O b = info.startState := by
    rw [hstart]; exact hwarm b sp
  rw [hsa, hsb]
  exact ⟨hidx, rfl, htake⟩

/-- C2: the DFS branch-ordering claim fails on the code as written.
`runSolverAndRecord` takes a single `takeStateSnapshot()` before the
search, so every `restoreStateSnapshot()` inside `dfs` reverts to the
search-start state instead of the branch point.  On a simulation whose
success condition is "the first frame was a click" (state = input
history) with `maxFrames = 3`, the search returns `[false, true]`: that
sequence is not a solution at all (replaying it frame-by-frame never
reaches success), while `[true]` is the unique genuine solution — so the
returned sequence is not the lexicographically smallest solution.  The
spec's section 4.2 algorithm (restore to the pre-step snapshot before the
engage branch) is the evident intent; the single-snapshot restore is the
slip. -/
theorem claim_c2_code_bug :
    dfs snapO 3 ([], false) 0 = some [false, true] ∧
    isSolution snapO 3 ([], false) 0 [false, true] = false ∧
    isSolution snapO 3 ([], false) 0 [true] = true := by decide

/-- C1 witness: on the toy adapter succeeding from state 5, the solver
finds the all-false sequence with success at frame 2, and replaying it on
a freshly reset instance (from the unrelated state 42) reproduces success
at frame 2. -/
theorem claim_c1_witness :
    firstSuccessIdx demoPlay (replayStates demoPlay (List.replicate 60 false)
      (warmStart demoPlay 42)) = some 2 :=
  (claim_c1_replay_determinism demoPlay demoRng 1000 1 7
    ⟨0, List.replicate 60 false, 2, 2⟩ (by with_unfolding_all rfl)
    (fun _ _ => rfl) 42 99).1

/-- C3 counterexample: the encoder is not injective on decision sequences
as the claim states — the sequences `[false]` and `[]` are distinct but
both encode to the empty record, because the encoding keeps only the
engaged frame indices and so drops trailing non-engaged frames. -/
theorem claim_c3_counterexample :
    encodeSeq [false] = encodeSeq [] ∧ ([false] : List Bool) ≠ [] :=
  ⟨rfl, by decide⟩

/-- C3 amended: the encoder is injective at the level of click-frame
lists rather than raw decision sequences — `encodeClicks` is injective,
the canonical decode inverts it (`decode (encode ns) = ns`), and two
decision sequences encode identically exactly when they engage the same
frames. -/
theorem claim_c3_encoder_injectivity :
    (∀ ns ms : List Nat, encodeClicks ns = encodeClicks ms → ns = ms) ∧
    (∀ ns : List Nat, decodeClicks (encodeClicks ns) = ns) ∧
    (∀ S1 S2 : List Bool,
      encodeSeq S1 = encodeSeq S2 ↔ clickFramesOf S1 = clickFramesOf S2) := by
  refine ⟨encodeClicks_injective, decodeClicks_encodeClicks, ?_⟩
  intro S1 S2
  constructor
  · intro h
    exact encodeClicks_injective _ _ h
  · intro h
    unfold encodeSeq
    rw [h]

/-- C3 witness: the amended laws at concrete inputs — injectivity at
`[3, 15]`, the decode round trip at `[3, 15]`, and the identification of
`[true, false]` with `[true]` (same engaged frame set). -/
theorem claim_c3_witness :
    ([3, 15] : List Nat) = [3, 15] ∧
    decodeClicks (encodeClicks [3, 15]) = [3, 15] ∧
    clickFramesOf [true, false] = clickFramesOf [true] :=
  ⟨claim_c3_encoder_injectivity.1 [3, 15] [3, 15] rfl,
   claim_c3_encoder_injectivity.2.1 [3, 15],
   (claim_c3_encoder_injectivity.2.2 [true, false] [true]).mp (by decide)⟩

/-- C4 counterexample: the claim that a search terminates within one
frame's processing of the deadline fails for the DFS — on a toy adapter
with no terminal states, frame cost 1, bound 3 and deadline 1, two engine
steps start strictly after the deadline (one per open recursion level), so
the post-deadline work exceeds one frame. -/
theorem claim_c4_counterexample :
    ¬ ((((dfsT demoU 3 1 1 () 0 0).2.2).filter
      (fun t => decide (1 < t))).length ≤ 1) := by decide

/-- C4 amended: the deadline is checked at the top of every recursive DFS
call and of every randomized trial, and the overrun is bounded — an
expired DFS call returns immediately performing no step, the number of
engine steps started after the deadline is at most one per open recursion
level (at most `maxFrames - frame`), and the randomized search finishes by
the deadline plus one trial's processing (two warm-ups plus at most 600
frames). -/
theorem claim_c4_budget_respect :
    (∀ (σ : Type) (O : DFSOracle σ) (maxF D c : Nat) (s : σ) (f now : Nat),
      D < now → dfsT O maxF D c s f now = (none, now, [])) ∧
    (∀ (σ : Type) (O : DFSOracle σ) (maxF D c : Nat) (s : σ) (f now : Nat),
      (((dfsT O maxF D c s f now).2.2).filter
        (fun t => decide (D < t))).length ≤ maxF - f) ∧
    (∀ (σ : Type) (O : PlaySim σ) (rng : Rng) (deadline c : Nat) (s : σ),
      (solverRun O rng deadline c s).now ≤ deadline + c * 602) := by
  refine ⟨?_, ?_, ?_⟩
  · intro σ O maxF D c s f now h
    exact dfsTGo_expired O maxF D c s (maxF - f) s f now h
  · intro σ O maxF D c s f now
    exact dfsTGo_post_len O maxF D c s (maxF - f) s f now
  · intro σ O rng deadline c s
    have h := solverLoopGo_now_le O rng deadline c MAX_TRIALS 0 0
      (if O.isGameplayActive s then s else O.startGame s)
    rw [Nat.max_eq_right (Nat.zero_le _)] at h
    exact h

/-- C4 witness: the amended bounds at concrete inputs — an expired call
returns at once, the toy run's post-deadline step count is within the
per-level bound, and the never-ready toy solver finishes within one
trial's processing of its deadline. -/
theorem claim_c4_witness :
    dfsT demoU 3 1 1 () 0 5 = (none, 5, []) ∧
    (((dfsT demoU 3 1 1 () 0 0).2.2).filter
      (fun t => decide (1 < t))).length ≤ 3 - 0 ∧
    (solverRun u7Play demoRng 1 1 ()).now ≤ 1 + 1 * 602 :=
  ⟨claim_c4_budget_respect.1 Unit demoU 3 1 1 () 0 5 (by decide),
   claim_c4_budget_respect.2.1 Unit demoU 3 1 1 () 0 0,
   claim_c4_budget_respect.2.2 Unit u7Play demoRng 1 1 ()⟩

/-- C5: length cap invariant — the DFS backtracks as soon as the frame
index reaches `maxFrames` (any call at `frame >= maxFrames` returns no
solution), a found DFS sequence is never longer than `maxFrames`, no
generated randomized trial is longer than `MAX_SEARCH_FRAMES`, and the
sequence of a found randomized trial respects that cap as well. -/
theorem claim_c5_length_cap :
    (∀ (σ : Type) (O : DFSOracle σ) (maxF : Nat) (s : σ) (f : Nat),
      maxF ≤ f → dfs O maxF s f = none) ∧
    (∀ (σ : Type) (O : DFSOracle σ) (maxF D c : Nat) (s : σ) (S : List Bool),
      (dfsT O maxF D c s 0 0).1 = some S → S.length ≤ maxF) ∧
    (∀ (rng : Rng) (t : Nat), (genSeqFor rng t).length ≤ MAX_SEARCH_FRAMES) ∧
    (∀ (σ : Type) (O : PlaySim σ) (rng : Rng) (deadline c : Nat) (s : σ)
      (info : FoundInfo σ),
      (solverRun O rng deadline c s).found = some info →
      info.seq.length ≤ MAX_SEARCH_FRAMES) := by
  have hmsf : MAX_SEARCH_FRAMES = 1800 := by decide
  have hgen : ∀ (rng : Rng) (t : Nat),
      (genSeqFor rng t).length ≤ MAX_SEARCH_FRAMES := by
    intro rng t
    have := genSeqFor_length_upper rng t
    omega
  refine ⟨?_, ?_, hgen, ?_⟩
  · intro σ O maxF s f h
    unfold dfs
    rw [Nat.sub_eq_zero_of_le h]
    rfl
  · intro σ O maxF D c s S hfound
    have hbridge := dfsTGo_found O maxF D c s (maxF - 0) s 0 0 S hfound
    have := dfsGo_length O maxF s (maxF - 0) s 0 S hbridge
    omega
  · intro σ O rng deadline c s info hfound
    obtain ⟨hseq, _, _⟩ :=
      solverLoopGo_found O rng deadline c MAX_TRIALS 0 0
        (if O.isGameplayActive s then s else O.startGame s) info hfound
    rw [hseq]
    exact hgen rng info.trial

/-- C5 witness: the cap at concrete inputs — the toy DFS at frame 7 with
bound 5 backtracks, the found toy DFS sequence has length within the
bound, a concrete trial draw is within `MAX_SEARCH_FRAMES`, and the found
toy trial sequence is too. -/
theorem claim_c5_witness :
    dfs demoDFSO 5 0 7 = none ∧
    ([false, false] : List Bool).length ≤ 5 ∧
    (genSeqFor demoRng 3).length ≤ MAX_SEARCH_FRAMES ∧
    (FoundInfo.seq ⟨0, List.replicate 60 false, 2, 2⟩).length ≤
      MAX_SEARCH_FRAMES :=
  ⟨claim_c5_length_cap.1 Nat demoDFSO 5 0 7 (by decide),
   claim_c5_length_cap.2.1 Nat demoDFSO 5 1000 1 0 [false, false] rfl,
   claim_c5_length_cap.2.2.1 demoRng 3,
   claim_c5_length_cap.2.2.2 Nat demoPlay demoRng 1000 1 7
     ⟨0, List.replicate 60 false, 2, 2⟩ (by with_unfolding_all rfl)⟩

/-- C6 counterexample: the reported `Found` result is not the prefix
actually played — on a toy adapter where success fires at frame 0 of a
trial whose generated sequence clicks at frame 1, the recorded click list
is `[1]`, a decision at a frame strictly after the success frame 0 that
was never simulated. -/
theorem claim_c6_counterexample :
    ((solverRun cexO6 cexRng6 1000 1 0).found.map
      (fun info => (info.frame, clickFramesOf info.seq))) = some (0, [1]) ∧
    ¬ ((1 : Nat) ≤ 0) :=
  ⟨by with_unfolding_all rfl, by decide⟩

/-- C6 amended: when a trial succeeds at frame `f` before the generated
sequence is exhausted, the solver records the click frames of the entire
generated sequence (`foundClicks` is collected over all of `seqLen`,
including undrawn frames after `f`); only the prefix through `f` was
actually simulated (`f` is strictly inside the sequence). -/
theorem claim_c6_found_records_full_seq {σ : Type} (O : PlaySim σ)
    (rng : Rng) (deadline c : Nat) (s : σ) (info : FoundInfo σ)
    (hfound : (solverRun O rng deadline c s).found = some info) :
    info.frame < info.seq.length ∧
    lastReplayDataOf (solverRun O rng deadline c s) =
      encodeClicks (clickFramesOf info.seq) := by
  obtain ⟨_, _, hrun⟩ :=
    solverLoopGo_found O rng deadline c MAX_TRIALS 0 0
      (if O.isGameplayActive s then s else O.startGame s) info hfound
  obtain ⟨j, hj, hjlen, _, _⟩ :=
    runTrial_success O info.seq 0 info.startState info.frame hrun
  constructor
  · omega
  · unfold lastReplayDataOf
    rw [hfound]
    rfl

/-- C6 witness: the amended behavior at the concrete counterexample run —
the success frame 0 lies inside the 60-frame generated sequence, and the
stored replay record is the CSV of the full sequence's click frames. -/
theorem claim_c6_witness :
    (FoundInfo.frame (σ := Nat) ⟨0, cexSeq6, 2, 0⟩) <
      (FoundInfo.seq (σ := Nat) ⟨0, cexSeq6, 2, 0⟩).length ∧
    lastReplayDataOf (solverRun cexO6 cexRng6 1000 1 0) =
      encodeClicks (clickFramesOf cexSeq6) :=
  claim_c6_found_records_full_seq cexO6 cexRng6 1000 1 0
    ⟨0, cexSeq6, 2, 0⟩ (by with_unfolding_all rfl)

theorem solverLoopGo_trials_pos {σ : Type} (O : PlaySim σ) (rng : Rng)
    (deadline c fuel now : Nat) (s : σ) (hd : now < deadline) :
    1 ≤ (solverLoopGo O rng deadline c (fuel + 1) 0 now s).trials := by
  simp only [solverLoopGo]
  rw [if_neg (by decide : ¬ MAX_TRIALS ≤ 0),
    if_neg (by omega : ¬ deadline ≤ now)]
  rcases hr : runTrial O (genSeqFor rng 0) 0 (warmStart O s)
    with ⟨o, played, s1⟩
  cases o with
  | some fr => dsimp only; omega
  | none =>
    dsimp only
    have := solverLoopGo_trials_ge O rng deadline c fuel (0 + 1)
      (now + c * (2 + played)) s1
    omega

/-- C7 counterexample: a not-ready simulation does not make the search
abort without consuming budget — with a toy adapter that is never
gameplay-active (and whose `startGame` does not change that), the solver
still attempts a trial and consumes clock time instead of producing an
immediate never-ready outcome. -/
theorem claim_c7_counterexample :
    u7Play.isGameplayActive () = false ∧
    (solverRun u7Play demoRng 1 1 ()).trials = 1 ∧
    (solverRun u7Play demoRng 1 1 ()).now = 3 :=
  ⟨rfl, by with_unfolding_all rfl, by with_unfolding_all rfl⟩

/-- C7 amended: when the simulation is not gameplay-active at search
start, `solverRun` calls `startGame()` and proceeds with the full trial
loop (there is no never-ready outcome in the code); with any positive
deadline it consumes at least one trial of the budget. -/
theorem claim_c7_not_ready_proceeds {σ : Type} (O : PlaySim σ) (rng : Rng)
    (deadline c : Nat) (s : σ) (hna : O.isGameplayActive s = false) :
    solverRun O rng deadline c s =
      solverLoopGo O rng deadline c MAX_TRIALS 0 0 (O.startGame s) ∧
    (0 < deadline → 1 ≤ (solverRun O rng deadline c s).trials) := by
  have hstart : solverRun O rng deadline c s =
      solverLoopGo O rng deadline c MAX_TRIALS 0 0 (O.startGame s) := by
    unfold solverRun
    rw [if_neg (by simp [hna])]
  refine ⟨hstart, ?_⟩
  intro hd
  rw [hstart]
  have hMT : MAX_TRIALS = 499 + 1 := by decide
  rw [hMT]
  exact solverLoopGo_trials_pos O rng deadline c 499 0 (O.startGame s) hd

/-- C7 witness: the amended behavior at the concrete never-active adapter
with deadline 1 — the run equals the loop started from `startGame`'s
state and at least one trial is attempted. -/
theorem claim_c7_witness :
    solverRun u7Play demoRng 1 1 () =
      solverLoopGo u7Play demoRng 1 1 MAX_TRIALS 0 0 (u7Play.startGame ()) ∧
    1 ≤ (solverRun u7Play demoRng 1 1 ()).trials :=
  ⟨(claim_c7_not_ready_proceeds u7Play demoRng 1 1 () rfl).1,
   (claim_c7_not_ready_proceeds u7Play demoRng 1 1 () rfl).2 (by decide)⟩

/-- C8 counterexample: two exports at distinct seconds can collide — the
source formats `(int)t`, a wrapping 32-bit cast of the `time_t` epoch
seconds, so the distinct seconds 0 and 2^32 produce identical suggested
filenames. -/
theorem claim_c8_counterexample :
    exportFilename ['a'] 0 = exportFilename ['a'] (2 ^ 32) ∧
    (0 : Nat) ≠ 2 ^ 32 :=
  ⟨rfl, by decide⟩

/-- C8 amended: the suggested filename is the level name sanitized to the
`[A-Za-z0-9_]` alphabet, an underscore, the decimal rendering of the
timestamp cast to a wrapping 32-bit signed `int`, and the fixed
`.macro.txt` extension; two exports collide only when their epoch seconds
agree modulo 2^32 — whenever the seconds differ modulo 2^32 (in
particular any two distinct seconds within one 2^32-second window), the
filenames differ, whatever the level names. -/
theorem claim_c8_filename_wrap :
    (∀ (l : List Char) (ch : Char), ch ∈ sanitizeName l →
      ch.isAlphanum = true ∨ ch = '_') ∧
    (∀ (l1 l2 : List Char) (t1 t2 : Nat), t1 % 2 ^ 32 ≠ t2 % 2 ^ 32 →
      exportFilename l1 t1 ≠ exportFilename l2 t2) := by
  refine ⟨sanitizeName_alphabet, ?_⟩
  intro l1 l2 t1 t2 hne heq
  exact hne (toInt32_mod_injective t1 t2
    (exportFilename_wrap_injective l1 l2 t1 t2 heq))

/-- C8 witness: at concrete inputs — the sanitized character of a level
name is in the identifier alphabet, and exports at seconds 1 and 2 of two
different level names do not collide. -/
theorem claim_c8_witness :
    ('a'.isAlphanum = true ∨ 'a' = '_') ∧
    exportFilename ['a'] 1 ≠ exportFilename ['b'] 2 :=
  ⟨claim_c8_filename_wrap.1 ['a'] 'a' (by decide),
   claim_c8_filename_wrap.2 ['a'] ['b'] 1 2 (by decide)⟩

/-- C9: the pure-compute background solver of src/src/main.cpp always
returns `Found` with the all-false sequence of length 501 — 501 being the
least frame count whose progress check `frame * 10 > 5000` fires — and its
output does not depend on the `SolverInput` snapshot it was given. -/
theorem claim_c9_main_solver (inp1 inp2 : SolverInput) :
    mainSolver inp1 = some (List.replicate 501 false) ∧
    mainSolver inp1 = mainSolver inp2 ∧
    (∀ g : Nat, SUCCESS_X_THRESHOLD < g * 10 → 501 ≤ g) ∧
    SUCCESS_X_THRESHOLD < 501 * 10 := by
  have hthr : SUCCESS_X_THRESHOLD = 5000 := by decide
  refine ⟨mainDfs_all_false 501 0 rfl, rfl, ?_, by decide⟩
  intro g hg
  omega

/-- C9 witness: the solver output at two concrete snapshot inputs, and
the minimality bound at 501 itself. -/
theorem claim_c9_witness :
    mainSolver ⟨0, 0⟩ = some (List.replicate 501 false) ∧
    mainSolver ⟨0, 0⟩ = mainSolver ⟨37, 42⟩ ∧
    501 ≤ 501 :=
  ⟨(claim_c9_main_solver ⟨0, 0⟩ ⟨37, 42⟩).1,
   (claim_c9_main_solver ⟨0, 0⟩ ⟨37, 42⟩).2.1,
   (claim_c9_main_solver ⟨0, 0⟩ ⟨37, 42⟩).2.2.1 501 (by decide)⟩

/-- C10: randomized trial bounds — the length cap is
`min(MAX_SEARCH_FRAMES, 600) = 600` with `MAX_SEARCH_FRAMES = 1800`, every
length draw lands in `[60, 600]` and every value of that range is
attainable, every click-probability draw from a raw value in `[0, 1]`
lands in `[0.01, 0.15]`, and every generated trial sequence has between
60 and 600 frames. -/
theorem claim_c10_trial_bounds :
    MAX_SEARCH_FRAMES = 1800 ∧
    min MAX_SEARCH_FRAMES 600 = 600 ∧
    (∀ raw : Nat, 60 ≤ uniformIntDist 60 (min MAX_SEARCH_FRAMES 600) raw ∧
      uniformIntDist 60 (min MAX_SEARCH_FRAMES 600) raw ≤ 600) ∧
    (∀ v : Nat, 60 ≤ v → v ≤ 600 →
      ∃ raw : Nat, uniformIntDist 60 (min MAX_SEARCH_FRAMES 600) raw = v) ∧
    (∀ r : ℚ, 0 ≤ r → r ≤ 1 →
      mkRat 1 100 ≤ uniformRealDist (mkRat 1 100) (mkRat 15 100) r ∧
      uniformRealDist (mkRat 1 100) (mkRat 15 100) r ≤ mkRat 15 100) ∧
    (∀ (rng : Rng) (t : Nat),
      60 ≤ (genSeqFor rng t).length ∧ (genSeqFor rng t).length ≤ 600) := by
  have hlohi : (mkRat 1 100 : ℚ) ≤ mkRat 15 100 := by
    rw [Rat.mkRat_eq_div, Rat.mkRat_eq_div]
    norm_num
  refine ⟨by decide, min_search_frames, ?_, ?_, ?_, ?_⟩
  · intro raw
    rw [min_search_frames]
    exact ⟨uniformIntDist_lower 60 600 raw,
      uniformIntDist_upper 60 600 raw (by omega)⟩
  · intro v hv1 hv2
    rw [min_search_frames]
    exact ⟨v - 60, uniformIntDist_onto 60 600 v hv1 hv2⟩
  · intro r hr0 hr1
    exact ⟨uniformRealDist_lower (mkRat 1 100) (mkRat 15 100) r hlohi hr0,
      uniformRealDist_upper (mkRat 1 100) (mkRat 15 100) r hlohi hr1⟩
  · intro rng t
    exact ⟨genSeqFor_length_lower rng t, genSeqFor_length_upper rng t⟩

/-- C10 witness: the bounds at concrete inputs — a raw length draw, the
attainability of 600, the probability bounds at the raw draw one half,
and the length bounds of a concrete generated trial. -/
theorem claim_c10_witness :
    (60 ≤ uniformIntDist 60 (min MAX_SEARCH_FRAMES 600) 1234 ∧
      uniformIntDist 60 (min MAX_SEARCH_FRAMES 600) 1234 ≤ 600) ∧
    (∃ raw : Nat, uniformIntDist 60 (min MAX_SEARCH_FRAMES 600) raw = 600) ∧
    (mkRat 1 100 ≤ uniformRealDist (mkRat 1 100) (mkRat 15 100) (mkRat 1 2) ∧
      uniformRealDist (mkRat 1 100) (mkRat 15 100) (mkRat 1 2) ≤
        mkRat 15 100) ∧
    (60 ≤ (genSeqFor demoRng 0).length ∧ (genSeqFor demoRng 0).length ≤ 600) :=
  ⟨claim_c10_trial_bounds.2.2.1 1234,
   claim_c10_trial_bounds.2.2.2.1 600 (by decide) (by decide),
   claim_c10_trial_bounds.2.2.2.2.1 (mkRat 1 2)
     (by rw [Rat.mkRat_eq_div]; norm_num) (by rw [Rat.mkRat_eq_div]; norm_num),
   claim_c10_trial_bounds.2.2.2.2.2 demoRng 0⟩
